import Mathlib

/-!
# Verification of the constraints_system shift-scheduling repository

This file gives a shallow embedding of the two parts of the repository the
claims concern: the weekly assignment solver (the repository's `scheduler.py`
is not among the available sources, so the solver is modelled from the
specification) and the front-end worker-table logic of `src/script.js`.

Strings coming from the page inputs are embedded as Lean `String`s; the
character-level operations on them (trimming, splitting, numeric conversion,
lexicographic comparison) are given as executable functions over `List Char`
so that every definition evaluates by kernel reduction.
-/

/-- Lexicographic strict order on character lists: the empty list precedes
any non-empty list, and otherwise the first differing character decides. -/
def lexLt : List Char → List Char → Bool
  | [], [] => false
  | [], _ :: _ => true
  | _ :: _, [] => false
  | a :: as, b :: bs => if a < b then true else if b < a then false else lexLt as bs

/-- Lexicographic strict order on strings, used for identifier tie-breaks. -/
def idLt (a b : String) : Bool :=
  lexLt a.toList b.toList

/-! ## Part 1: the assignment solver (modelled from the spec) -/

/-- Modelled from the spec: a roster worker (`scheduler.py` is missing from
the available sources).  A worker has an identifier, unique within a company,
and a display name; the identifier is a string (worker identifiers are TEXT
in the data model) and tie-breaks use its lexicographic order. -/
structure Worker where
  id : String
  name : String
deriving DecidableEq, Repr

/-- Modelled from the spec: a shift type of the company catalog, with an
identifier and a name; the catalog order is the list order. -/
structure ShiftType where
  id : Nat
  name : String
deriving DecidableEq, Repr

/-- Modelled from the spec: an unavailability record — the triple
(worker identifier, day-of-week, shift-type identifier) meaning the worker
must NOT be assigned to that slot. -/
structure UnavailabilityConstraint where
  workerId : String
  day : Nat
  shiftTypeId : Nat
deriving DecidableEq, Repr

/-- Modelled from the spec: one (day-of-week, shift-type identifier) slot of
the weekly grid. -/
structure ShiftSlot where
  day : Nat
  shiftTypeId : Nat
deriving DecidableEq, Repr

/-- Modelled from the spec: the week selector (`current`/`next`); the solver
itself is week-selector-agnostic. -/
inductive WeekSelector where
  | current
  | next
deriving DecidableEq, Repr

/-- Modelled from the spec: the feasibility flag of a solve result. -/
inductive SolveStatus where
  | Complete
  | Partial
deriving DecidableEq, Repr

/-- Modelled from the spec: the solver's error taxonomy.  `InvalidCatalog`
(zero shift types) is the only error; an empty roster and infeasibility are
not errors. -/
inductive SolveError where
  | InvalidCatalog
deriving DecidableEq, Repr

/-- Modelled from the spec: the solver output — the assignment (slot to
zero-or-one worker), the status flag, and the filled/total slot counts. -/
structure SolveResult where
  assignment : List (ShiftSlot × Option Worker)
  status : SolveStatus
  filledCount : Nat
  totalSlots : Nat
deriving DecidableEq, Repr

/-- Modelled from the spec: whether an unavailability record matches a given
worker and slot (same worker identifier, same day, same shift-type
identifier). -/
def matchesSlot (c : UnavailabilityConstraint) (w : Worker) (slot : ShiftSlot) : Bool :=
  decide (c.workerId = w.id) && decide (c.day = slot.day) &&
    decide (c.shiftTypeId = slot.shiftTypeId)

/-- Modelled from the spec: a worker is eligible for a slot when no
unavailability record in the input matches that worker and slot. -/
def eligibleFor (constraints : List UnavailabilityConstraint) (slot : ShiftSlot)
    (w : Worker) : Bool :=
  constraints.all (fun c => ! matchesSlot c w slot)

/-- Modelled from the spec: whether, in the partial assignment built so far,
the worker already holds some slot on the given day. -/
def assignedOnDay (acc : List (ShiftSlot × Option Worker)) (d : Nat) (w : Worker) : Bool :=
  acc.any (fun p => decide (p.1.day = d) && decide (p.2 = some w))

/-- Modelled from the spec: the Fairness Scorer — the number of shifts already
assigned to the worker in the partial assignment built so far. -/
def shiftsCount (acc : List (ShiftSlot × Option Worker)) (w : Worker) : Nat :=
  (acc.filter (fun p => decide (p.2 = some w))).length

/-- Modelled from the spec: keep the better of the current best candidate and
the next worker — strictly fewer shifts wins, and on equal shift counts the
lexicographically smaller identifier wins. -/
def pickBetter (cnt : Worker → Nat) (best : Option Worker) (w : Worker) : Option Worker :=
  match best with
  | none => some w
  | some b =>
    if decide (cnt w < cnt b) || (decide (cnt w = cnt b) && idLt w.id b.id) then some w
    else some b

/-- Modelled from the spec: among the candidate workers, choose the one with
the fewest shifts assigned so far, breaking remaining ties by the
lexicographically smallest identifier; `none` when there is no candidate. -/
def pickWorker (cnt : Worker → Nat) (cands : List Worker) : Option Worker :=
  cands.foldl (pickBetter cnt) none

/-- Modelled from the spec: one greedy step of the solver — for the given
slot, filter the workers down to those eligible and not yet assigned that
day, pick the best one (or none), and append the decision; earlier decisions
are never revisited. -/
def assignSlot (workers : List Worker) (constraints : List UnavailabilityConstraint)
    (acc : List (ShiftSlot × Option Worker)) (slot : ShiftSlot) :
    List (ShiftSlot × Option Worker) :=
  let cands := workers.filter
    (fun w => eligibleFor constraints slot w && ! assignedOnDay acc slot.day w)
  acc ++ [(slot, pickWorker (shiftsCount acc) cands)]

/-- Modelled from the spec: the single deterministic greedy pass of the
solver over an ordered slot list, starting from the empty assignment. -/
def solveSlots (workers : List Worker) (constraints : List UnavailabilityConstraint)
    (slots : List ShiftSlot) : List (ShiftSlot × Option Worker) :=
  slots.foldl (assignSlot workers constraints) []

/-- Modelled from the spec: the Slot Grid Builder — expand the catalog into
the week's slot list, ordered by day index ascending then by shift-type
catalog order ascending. -/
def buildSlotGrid (catalog : List ShiftType) : List ShiftSlot :=
  (List.range 7).flatMap (fun d => catalog.map (fun st => ⟨d, st.id⟩))

/-- Modelled from the spec: `solve_shift_schedule` of the missing
`scheduler.py` — the solver's single operation.  With an empty shift-type
catalog it fails with `InvalidCatalog`; otherwise it builds the weekly grid,
runs the greedy pass, and reports `Complete` exactly when every slot is
filled, else `Partial`.  The week selector is accepted but does not influence
the computation. -/
def solve (workers : List Worker) (shiftTypes : List ShiftType)
    (constraints : List UnavailabilityConstraint) (week : WeekSelector) :
    Except SolveError SolveResult :=
  if shiftTypes = [] then
    .error .InvalidCatalog
  else
    let slots := buildSlotGrid shiftTypes
    let assignment := solveSlots workers constraints slots
    let filled := (assignment.filter (fun p => p.2.isSome)).length
    .ok { assignment := assignment
        , status := if filled = slots.length then .Complete else .Partial
        , filledCount := filled
        , totalSlots := slots.length }

/-! ## Part 2: the worker-table front end (`src/script.js`) -/

/-- Models JavaScript `String.prototype.trim`: drop whitespace characters
from both ends. -/
def trimChars (cs : List Char) : List Char :=
  ((cs.dropWhile Char.isWhitespace).reverse.dropWhile Char.isWhitespace).reverse

/-- Models JavaScript `String.prototype.split(',')`: the comma-separated
tokens, with empty tokens kept (splitting the empty string gives one empty
token). -/
def splitComma : List Char → List (List Char)
  | [] => [[]]
  | c :: rest =>
    if c = ',' then [] :: splitComma rest
    else
      match splitComma rest with
      | [] => [[c]]
      | t :: ts => (c :: t) :: ts

/-- The numeric value of a digit string, most significant digit first. -/
def natOfDigits (cs : List Char) : Nat :=
  cs.foldl (fun n c => n * 10 + (c.toNat - 48)) 0

/-- Models the JavaScript `Number` conversion as used on the comma-separated
tokens: surrounding whitespace is ignored, the empty token converts to 0, an
optional-minus whole-number numeral converts to its value, and any other
token yields NaN, modelled as `none` (so the source's
`filter(n => !isNaN(n))` becomes dropping the `none`s). -/
def jsNumber (token : List Char) : Option Int :=
  let t := trimChars token
  if t.isEmpty then some 0
  else if t.all Char.isDigit then some (natOfDigits t)
  else
    match t with
    | '-' :: rest =>
      if !rest.isEmpty && rest.all Char.isDigit then some (-(natOfDigits rest : Int))
      else none
    | _ => none

/-- One row of the `workers-table` as created by `addWorkerRow`: cell 0 holds
the name input, cell 1 the id-number input, cell 2 the phone input, cell 3
the email input, cell 4 the shifts input (cell 5 is the remove button). -/
structure WorkerRow where
  name : String
  idNumber : String
  phone : String
  email : String
  shiftsText : String
deriving DecidableEq, Repr

/-- The text of the input in cell `i` of a row, following `addWorkerRow`'s
cell layout; out-of-range indices give the empty string. -/
def WorkerRow.cell : WorkerRow → Nat → String
  | r, 0 => r.name
  | r, 1 => r.idNumber
  | r, 2 => r.phone
  | r, 3 => r.email
  | r, 4 => r.shiftsText
  | _, _ => ""

/-- A worker object pushed into the `workers` array of
`sendWorkersAndGetSchedule` and sent in the POST body. -/
structure PostedWorker where
  name : String
  shifts : List Int
deriving DecidableEq, Repr

/-- The per-row body of the `rows.forEach` loop in
`sendWorkersAndGetSchedule`: read and trim the inputs of cell 0 (`name`) and
cell 1 (`shiftsRaw`); skip the row when either is empty; split `shiftsRaw` on
commas, convert each token with `Number` and drop the NaN results; skip the
row when no number remains; otherwise produce the worker object. -/
def parseRow (row : WorkerRow) : Option PostedWorker :=
  let name := trimChars (row.cell 0).toList
  let shiftsRaw := trimChars (row.cell 1).toList
  if name.isEmpty || shiftsRaw.isEmpty then none
  else
    let shifts := ((splitComma shiftsRaw).map jsNumber).filterMap id
    if shifts.isEmpty then none
    else some { name := ⟨name⟩, shifts := shifts }

/-- The `workers` array built by `sendWorkersAndGetSchedule` from the table
rows, in row order. -/
def buildWorkers (rows : List WorkerRow) : List PostedWorker :=
  rows.filterMap parseRow

/-- The observable outcome of `sendWorkersAndGetSchedule`: either the alert
path (no POST request, the schedule display untouched) or a POST of the built
workers array to `/schedule`. -/
inductive SendResult where
  | alerted
  | posted (workers : List PostedWorker)
deriving DecidableEq, Repr

/-- `sendWorkersAndGetSchedule` of `src/script.js`, reduced to its observable
outcome: build the workers array from the rows; when it is empty, alert and
return without a network request; otherwise POST the array. -/
def sendWorkersAndGetSchedule (rows : List WorkerRow) : SendResult :=
  let workers := buildWorkers rows
  if workers.isEmpty then .alerted else .posted workers

/-- Whether a table row qualifies (contributes a worker object): trimmed
cell-0 text non-empty, trimmed cell-1 text non-empty, and at least one
comma-separated token of the cell-1 text converts to a number. -/
def rowQualifies (r : WorkerRow) : Bool :=
  !(trimChars (r.cell 0).toList).isEmpty &&
  !(trimChars (r.cell 1).toList).isEmpty &&
  !(((splitComma (trimChars (r.cell 1).toList)).map jsNumber).filterMap id).isEmpty

/-- The worker object a qualifying row contributes: the trimmed cell-0 text
as name, and the numeric values of the cell-1 tokens as shifts. -/
def rowWorker (r : WorkerRow) : PostedWorker :=
  { name := ⟨trimChars (r.cell 0).toList⟩
  , shifts := ((splitComma (trimChars (r.cell 1).toList)).map jsNumber).filterMap id }

/-! ## Helper lemmas about the solver -/

/-- Eligibility spelt out: no constraint in the list names this worker's
identifier together with this slot's day and shift-type identifier. -/
theorem eligibleFor_eq_true_iff (C : List UnavailabilityConstraint) (slot : ShiftSlot)
    (w : Worker) :
    eligibleFor C slot w = true ↔
      ∀ c ∈ C, ¬(c.workerId = w.id ∧ c.day = slot.day ∧ c.shiftTypeId = slot.shiftTypeId) := by
  simp [eligibleFor, matchesSlot, List.all_eq_true, -not_and, not_and_or, or_assoc]

/-- Day-occupancy spelt out, negative form. -/
theorem assignedOnDay_eq_false_iff (acc : List (ShiftSlot × Option Worker)) (d : Nat)
    (w : Worker) :
    assignedOnDay acc d w = false ↔ ∀ p ∈ acc, ¬(p.1.day = d ∧ p.2 = some w) := by
  simp [assignedOnDay, -not_and, not_and_or]

/-- Day-occupancy spelt out, positive form. -/
theorem assignedOnDay_eq_true_iff (acc : List (ShiftSlot × Option Worker)) (d : Nat)
    (w : Worker) :
    assignedOnDay acc d w = true ↔ ∃ p ∈ acc, p.1.day = d ∧ p.2 = some w := by
  simp [assignedOnDay]

/-- Day-occupancy only grows when the partial assignment grows. -/
theorem assignedOnDay_mono {a b : List (ShiftSlot × Option Worker)} {d : Nat} {w : Worker}
    (hsub : ∀ p ∈ a, p ∈ b) (h : assignedOnDay a d w = true) :
    assignedOnDay b d w = true := by
  rw [assignedOnDay_eq_true_iff] at h ⊢
  obtain ⟨p, hp, hpd⟩ := h
  exact ⟨p, hsub p hp, hpd⟩

/-- A worker returned by the candidate fold is one of the candidates (or was
the initial best). -/
theorem foldl_pickBetter_mem (cnt : Worker → Nat) :
    ∀ (l : List Worker) (b : Option Worker) (w : Worker),
      l.foldl (pickBetter cnt) b = some w → b = some w ∨ w ∈ l := by
  intro l
  induction l with
  | nil => intro b w h; exact Or.inl h
  | cons x xs ih =>
    intro b w h
    rcases ih (pickBetter cnt b x) w h with h' | h'
    · cases b with
      | none =>
        simp [pickBetter] at h'
        exact Or.inr (by simp [h'])
      | some b0 =>
        simp only [pickBetter] at h'
        split at h'
        · exact Or.inr (by simp at h'; simp [h'])
        · exact Or.inl h'
    · exact Or.inr (List.mem_cons_of_mem _ h')

/-- A worker returned by `pickWorker` is one of the candidates. -/
theorem pickWorker_mem {cnt : Worker → Nat} {l : List Worker} {w : Worker}
    (h : pickWorker cnt l = some w) : w ∈ l := by
  rcases foldl_pickBetter_mem cnt l none w h with h' | h'
  · exact absurd h' (by simp)
  · exact h'

/-- Starting the candidate fold from an actual candidate never loses it. -/
theorem foldl_pickBetter_isSome (cnt : Worker → Nat) :
    ∀ (l : List Worker) (b0 : Worker), (l.foldl (pickBetter cnt) (some b0)).isSome = true := by
  intro l
  induction l with
  | nil => intro b0; rfl
  | cons x xs ih =>
    intro b0
    show (xs.foldl (pickBetter cnt) (pickBetter cnt (some b0) x)).isSome = true
    simp only [pickBetter]
    split
    · exact ih x
    · exact ih b0

/-- `pickWorker` declines exactly on an empty candidate list. -/
theorem pickWorker_eq_none_iff (cnt : Worker → Nat) (l : List Worker) :
    pickWorker cnt l = none ↔ l = [] := by
  cases l with
  | nil => simp [pickWorker]
  | cons x xs =>
    simp only [pickWorker, List.foldl_cons]
    have h := foldl_pickBetter_isSome cnt xs x
    constructor
    · intro hnone
      rw [show pickBetter cnt none x = some x from rfl] at hnone
      rw [hnone] at h
      simp at h
    · intro hx; cases hx

/-- Entries already decided survive the rest of the greedy pass. -/
theorem foldl_assignSlot_mem_mono (W : List Worker) (C : List UnavailabilityConstraint) :
    ∀ (slots : List ShiftSlot) (acc : List (ShiftSlot × Option Worker))
      (p : ShiftSlot × Option Worker),
      p ∈ acc → p ∈ slots.foldl (assignSlot W C) acc := by
  intro slots
  induction slots with
  | nil => intro acc p hp; exact hp
  | cons s rest ih =>
    intro acc p hp
    exact ih (assignSlot W C acc s) p (by simp [assignSlot, hp])

/-- Every entry of the greedy pass output is either inherited from the
accumulator or decided for one of the processed slots. -/
theorem foldl_assignSlot_mem_src (W : List Worker) (C : List UnavailabilityConstraint) :
    ∀ (slots : List ShiftSlot) (acc : List (ShiftSlot × Option Worker))
      (p : ShiftSlot × Option Worker),
      p ∈ slots.foldl (assignSlot W C) acc → p ∈ acc ∨ p.1 ∈ slots := by
  intro slots
  induction slots with
  | nil => intro acc p hp; exact Or.inl hp
  | cons s rest ih =>
    intro acc p hp
    rcases ih (assignSlot W C acc s) p hp with h' | h'
    · simp only [assignSlot, List.mem_append, List.mem_singleton] at h'
      rcases h' with h'' | h''
      · exact Or.inl h''
      · subst h''; exact Or.inr (by simp)
    · exact Or.inr (List.mem_cons_of_mem _ h')

/-- Every filled entry produced by the greedy pass names a roster worker who
is eligible for that slot. -/
theorem foldl_assignSlot_filled (W : List Worker) (C : List UnavailabilityConstraint) :
    ∀ (slots : List ShiftSlot) (acc : List (ShiftSlot × Option Worker))
      (slot : ShiftSlot) (w : Worker),
      (slot, some w) ∈ slots.foldl (assignSlot W C) acc →
      (slot, some w) ∈ acc ∨ (w ∈ W ∧ eligibleFor C slot w = true) := by
  intro slots
  induction slots with
  | nil => intro acc slot w hp; exact Or.inl hp
  | cons s rest ih =>
    intro acc slot w hp
    rcases ih (assignSlot W C acc s) slot w hp with h' | h'
    · simp only [assignSlot, List.mem_append, List.mem_singleton] at h'
      rcases h' with h'' | h''
      · exact Or.inl h''
      · have hslot : slot = s := congrArg Prod.fst h''
        have hpick : pickWorker (shiftsCount acc)
            (W.filter (fun v => eligibleFor C s v && ! assignedOnDay acc s.day v)) = some w := by
          have := congrArg Prod.snd h''
          simpa [assignSlot] using this.symm
        have hmem := pickWorker_mem hpick
        rw [List.mem_filter] at hmem
        refine Or.inr ⟨hmem.1, ?_⟩
        have := hmem.2
        rw [Bool.and_eq_true] at this
        rw [hslot]
        exact this.1
    · exact Or.inr h'

/-- No two entries of the output give the same worker two slots on the same
day: the ordered pairwise form of the no-double-booking invariant. -/
def DayOk (p q : ShiftSlot × Option Worker) : Prop :=
  ∀ w : Worker, p.2 = some w → q.2 = some w → p.1.day ≠ q.1.day

/-- The greedy pass preserves pairwise day-disjointness of filled entries. -/
theorem foldl_assignSlot_pairwise (W : List Worker) (C : List UnavailabilityConstraint) :
    ∀ (slots : List ShiftSlot) (acc : List (ShiftSlot × Option Worker)),
      acc.Pairwise DayOk → (slots.foldl (assignSlot W C) acc).Pairwise DayOk := by
  intro slots
  induction slots with
  | nil => intro acc h; exact h
  | cons s rest ih =>
    intro acc hacc
    refine ih (assignSlot W C acc s) ?_
    rw [assignSlot, List.pairwise_append]
    refine ⟨hacc, List.pairwise_singleton _ _, ?_⟩
    intro p hp q hq
    rw [List.mem_singleton] at hq
    subst hq
    rcases hpick : pickWorker (shiftsCount acc)
        (W.filter (fun v => eligibleFor C s v && ! assignedOnDay acc s.day v)) with _ | w0
    · intro w _ hq2
      simp at hq2
    · have hmem := pickWorker_mem hpick
      rw [List.mem_filter, Bool.and_eq_true] at hmem
      have hnass : assignedOnDay acc s.day w0 = false := by
        have := hmem.2.2
        simpa using this
      rw [assignedOnDay_eq_false_iff] at hnass
      intro w hpw hq2
      have hw : w = w0 := by simpa using hq2.symm
      subst hw
      have := hnass p hp
      intro hday
      exact this ⟨hday, hpw⟩

/-- If the greedy pass leaves a slot unfilled, then every roster worker is
either constrained out of that slot or holds some same-day slot in the final
output. -/
theorem foldl_assignSlot_unfilled (W : List Worker) (C : List UnavailabilityConstraint) :
    ∀ (slots : List ShiftSlot) (acc : List (ShiftSlot × Option Worker)) (slot : ShiftSlot),
      (slot, (none : Option Worker)) ∈ slots.foldl (assignSlot W C) acc →
      (slot, (none : Option Worker)) ∈ acc ∨
        ∀ w ∈ W, eligibleFor C slot w = false ∨
          assignedOnDay (slots.foldl (assignSlot W C) acc) slot.day w = true := by
  intro slots
  induction slots with
  | nil => intro acc slot hp; exact Or.inl hp
  | cons s rest ih =>
    intro acc slot hp
    rw [List.foldl_cons] at hp ⊢
    rcases ih (assignSlot W C acc s) slot hp with h' | h'
    · simp only [assignSlot, List.mem_append, List.mem_singleton] at h'
      rcases h' with h'' | h''
      · exact Or.inl h''
      · have hslot : slot = s := congrArg Prod.fst h''
        have hpick : pickWorker (shiftsCount acc)
            (W.filter (fun v => eligibleFor C s v && ! assignedOnDay acc s.day v)) = none := by
          have := congrArg Prod.snd h''
          simpa using this.symm
        rw [pickWorker_eq_none_iff, List.filter_eq_nil_iff] at hpick
        refine Or.inr ?_
        intro w hw
        have := hpick w hw
        rw [Bool.and_eq_true] at this
        push_neg at this
        by_cases helig : eligibleFor C s w = true
        · have hass : assignedOnDay acc slot.day w = true := by
            rw [hslot]
            have h2 := this helig
            simpa using h2
          refine Or.inr ?_
          refine assignedOnDay_mono ?_ hass
          intro p hpmem
          exact foldl_assignSlot_mem_mono W C rest (assignSlot W C acc s) p
            (by simp [assignSlot, hpmem])
        · exact Or.inl (by rw [hslot]; simpa using helig)
    · exact Or.inr h'

/-- The greedy pass decides exactly one entry per processed slot. -/
theorem foldl_assignSlot_length (W : List Worker) (C : List UnavailabilityConstraint) :
    ∀ (slots : List ShiftSlot) (acc : List (ShiftSlot × Option Worker)),
      (slots.foldl (assignSlot W C) acc).length = acc.length + slots.length := by
  intro slots
  induction slots with
  | nil => intro acc; simp
  | cons s rest ih =>
    intro acc
    rw [List.foldl_cons, ih (assignSlot W C acc s)]
    simp [assignSlot]
    omega

/-- With an empty roster the greedy pass leaves every slot unfilled. -/
theorem foldl_assignSlot_nil_workers (C : List UnavailabilityConstraint) :
    ∀ (slots : List ShiftSlot) (acc : List (ShiftSlot × Option Worker)),
      slots.foldl (assignSlot [] C) acc = acc ++ slots.map (fun s => (s, none)) := by
  intro slots
  induction slots with
  | nil => intro acc; simp
  | cons s rest ih =>
    intro acc
    rw [List.foldl_cons, ih (assignSlot [] C acc s)]
    simp [assignSlot, pickWorker]

/-- With a non-empty catalog, `solve` succeeds and its result fields unfold
to the greedy-pass output over the weekly grid. -/
theorem solve_eq_ok (W : List Worker) {S : List ShiftType}
    (C : List UnavailabilityConstraint) (k : WeekSelector) (hS : S ≠ []) :
    solve W S C k = Except.ok
      { assignment := solveSlots W C (buildSlotGrid S)
      , status :=
          if ((solveSlots W C (buildSlotGrid S)).filter (fun p => p.2.isSome)).length
              = (buildSlotGrid S).length then .Complete else .Partial
      , filledCount := ((solveSlots W C (buildSlotGrid S)).filter (fun p => p.2.isSome)).length
      , totalSlots := (buildSlotGrid S).length } := by
  simp [solve, hS]

/-- A successful `solve` call forces a non-empty catalog and determines every
field of the result. -/
theorem solve_ok_inv {W : List Worker} {S : List ShiftType}
    {C : List UnavailabilityConstraint} {k : WeekSelector} {r : SolveResult}
    (hr : solve W S C k = Except.ok r) :
    S ≠ [] ∧
    r.assignment = solveSlots W C (buildSlotGrid S) ∧
    r.status = (if ((solveSlots W C (buildSlotGrid S)).filter (fun p => p.2.isSome)).length
        = (buildSlotGrid S).length then .Complete else .Partial) ∧
    r.filledCount = ((solveSlots W C (buildSlotGrid S)).filter (fun p => p.2.isSome)).length ∧
    r.totalSlots = (buildSlotGrid S).length := by
  rcases hS : S with _ | ⟨s0, S'⟩
  · subst hS
    simp [solve] at hr
  · have hne : S ≠ [] := by simp [hS]
    rw [← hS] at *
    rw [solve_eq_ok W C k hne, Except.ok.injEq] at hr
    subst hr
    exact ⟨hne, rfl, rfl, rfl, rfl⟩

/-- The weekly grid has seven slots per catalog entry. -/
theorem buildSlotGrid_length (S : List ShiftType) :
    (buildSlotGrid S).length = 7 * S.length := by
  simp [buildSlotGrid, List.length_flatMap, Function.comp_def]
  omega

/-! ## Helper lemmas about the front end -/

/-- The loop body in closed form: a row contributes its worker object exactly
when it qualifies. -/
theorem parseRow_eq_qualifies (r : WorkerRow) :
    parseRow r = if rowQualifies r then some (rowWorker r) else none := by
  simp only [parseRow, rowQualifies, rowWorker, List.filterMap_map, Function.id_comp]
  cases h0 : (trimChars ((r.cell 0)).toList).isEmpty
  · cases h1 : (trimChars ((r.cell 1)).toList).isEmpty
    · cases h2 : (List.filterMap jsNumber (splitComma (trimChars ((r.cell 1)).toList))).isEmpty
      · simp [h0, h1, h2]
      · simp [h0, h1, h2]
    · simp [h0, h1]
  · simp [h0]

/-- The workers array in closed form: the qualifying rows, in order, each
mapped to its worker object. -/
theorem buildWorkers_eq (rows : List WorkerRow) :
    buildWorkers rows = (rows.filter rowQualifies).map rowWorker := by
  induction rows with
  | nil => rfl
  | cons r rest ih =>
    have ih' : List.filterMap parseRow rest = (rest.filter rowQualifies).map rowWorker := ih
    rw [buildWorkers, List.filterMap_cons, parseRow_eq_qualifies r]
    cases hq : rowQualifies r <;> simp [hq, List.filter_cons, ih']

/-! ## Concrete fixtures for the witnesses -/

/-- A concrete worker used by the witnesses. -/
def wAlice : Worker := ⟨"a", "Alice"⟩

/-- A second concrete worker used by the witnesses. -/
def wBob : Worker := ⟨"b", "Bob"⟩

/-- A concrete one-entry shift-type catalog used by the witnesses. -/
def stMorning : ShiftType := ⟨1, "Morning"⟩

/-- The solve result for one worker, the one-entry catalog, and a constraint
that matches no slot: every slot of the week goes to that worker. -/
def rC1 : SolveResult :=
  { assignment :=
      [(⟨0,1⟩, some wAlice), (⟨1,1⟩, some wAlice), (⟨2,1⟩, some wAlice),
       (⟨3,1⟩, some wAlice), (⟨4,1⟩, some wAlice), (⟨5,1⟩, some wAlice),
       (⟨6,1⟩, some wAlice)]
  , status := .Complete, filledCount := 7, totalSlots := 7 }

/-- The solve result for one worker, the one-entry catalog and no
constraints. -/
def rC2 : SolveResult :=
  { assignment :=
      [(⟨0,1⟩, some wAlice), (⟨1,1⟩, some wAlice), (⟨2,1⟩, some wAlice),
       (⟨3,1⟩, some wAlice), (⟨4,1⟩, some wAlice), (⟨5,1⟩, some wAlice),
       (⟨6,1⟩, some wAlice)]
  , status := .Complete, filledCount := 7, totalSlots := 7 }

/-! ## The claims -/

/-- C1: for every output of `solve`, every (slot, worker) pair in the
returned assignment satisfies that no `UnavailabilityConstraint` with that
worker's identifier, that slot's day, and that slot's shift-type identifier
occurs in the input constraint list. -/
theorem solve_respects_constraints (W : List Worker) (S : List ShiftType)
    (C : List UnavailabilityConstraint) (k : WeekSelector) (r : SolveResult)
    (hr : solve W S C k = Except.ok r) (slot : ShiftSlot) (w : Worker)
    (hmem : (slot, some w) ∈ r.assignment) :
    ∀ c ∈ C, ¬(c.workerId = w.id ∧ c.day = slot.day ∧ c.shiftTypeId = slot.shiftTypeId) := by
  obtain ⟨-, hassign, -, -, -⟩ := solve_ok_inv hr
  rw [hassign] at hmem
  rcases foldl_assignSlot_filled W C (buildSlotGrid S) [] slot w hmem with h | h
  · simp at h
  · exact (eligibleFor_eq_true_iff C slot w).mp h.2

/-- Witness for C1 at a concrete input: one worker, the one-entry catalog,
and one constraint naming a shift type absent from the catalog; the input
constraint does not match the first assigned pair. -/
theorem solve_respects_constraints_witness :
    ¬((⟨"a", 3, 9⟩ : UnavailabilityConstraint).workerId = wAlice.id ∧
      (⟨"a", 3, 9⟩ : UnavailabilityConstraint).day = (⟨0,1⟩ : ShiftSlot).day ∧
      (⟨"a", 3, 9⟩ : UnavailabilityConstraint).shiftTypeId
        = (⟨0,1⟩ : ShiftSlot).shiftTypeId) :=
  solve_respects_constraints [wAlice] [stMorning] [⟨"a", 3, 9⟩] .current rC1
    rfl ⟨0,1⟩ wAlice (by decide) ⟨"a", 3, 9⟩ (by decide)

/-- C2: for every output of `solve`, no worker appears in two distinct slots
of the returned assignment that have the same day index. -/
theorem solve_no_double_booking (W : List Worker) (S : List ShiftType)
    (C : List UnavailabilityConstraint) (k : WeekSelector) (r : SolveResult)
    (hr : solve W S C k = Except.ok r) (i j : Nat)
    (hi : i < r.assignment.length) (hj : j < r.assignment.length) (hij : i ≠ j)
    (w : Worker) (h1 : (r.assignment.get ⟨i, hi⟩).2 = some w)
    (h2 : (r.assignment.get ⟨j, hj⟩).2 = some w) :
    (r.assignment.get ⟨i, hi⟩).1.day ≠ (r.assignment.get ⟨j, hj⟩).1.day := by
  obtain ⟨-, hassign, -, -, -⟩ := solve_ok_inv hr
  have hpw : r.assignment.Pairwise DayOk := by
    rw [hassign]
    exact foldl_assignSlot_pairwise W C (buildSlotGrid S) [] (List.Pairwise.nil)
  rw [List.pairwise_iff_getElem] at hpw
  rcases Nat.lt_or_ge i j with hlt | hge
  · have := hpw i j hi hj hlt w
    simpa [List.get_eq_getElem] using this h1 h2
  · have hjl : j < i := Nat.lt_of_le_of_ne hge (Ne.symm hij)
    have := hpw j i hj hi hjl w
    have hne := this h2 h1
    simp only [List.get_eq_getElem] at hne ⊢
    exact (Ne.symm hne)

/-- Witness for C2 at a concrete input: with one worker and the one-entry
catalog, positions 0 and 1 of the output are both filled by that worker and
lie on different days. -/
theorem solve_no_double_booking_witness :
    (rC2.assignment.get ⟨0, by decide⟩).1.day ≠ (rC2.assignment.get ⟨1, by decide⟩).1.day :=
  solve_no_double_booking [wAlice] [stMorning] [] .current rC2 rfl
    0 1 (by decide) (by decide) (by decide) wAlice (by decide) (by decide)

/-- C3: `solve` is deterministic — two calls on identical workers, shift
types, constraints and week selector return identical outputs (same
assignment, status, filledCount and totalSlots). -/
theorem solve_deterministic (W : List Worker) (S : List ShiftType)
    (C : List UnavailabilityConstraint) (k : WeekSelector)
    (r1 r2 : Except SolveError SolveResult)
    (h1 : r1 = solve W S C k) (h2 : r2 = solve W S C k) : r1 = r2 :=
  h1.trans h2.symm

/-- Witness for C3 at a concrete input. -/
theorem solve_deterministic_witness :
    solve [wAlice] [stMorning] [] .current = solve [wAlice] [stMorning] [] .current :=
  solve_deterministic [wAlice] [stMorning] [] .current _ _ rfl rfl

/-- C4: `solve` returns the `InvalidCatalog` error exactly when the supplied
shift-type list is empty, and never returns an error when it is non-empty —
infeasibility is expressed only through unfilled slots, never as an error. -/
theorem solve_error_iff_empty_catalog (W : List Worker) (S : List ShiftType)
    (C : List UnavailabilityConstraint) (k : WeekSelector) :
    (solve W S C k = Except.error SolveError.InvalidCatalog ↔ S = []) ∧
    (S ≠ [] → ∃ r, solve W S C k = Except.ok r) := by
  constructor
  · constructor
    · intro h
      by_contra hS
      rw [solve_eq_ok W C k hS] at h
      cases h
    · intro h; subst h; rfl
  · intro hS
    exact ⟨_, solve_eq_ok W C k hS⟩

/-- Witness for C4 at a concrete input: with the one-entry catalog, `solve`
succeeds. -/
theorem solve_error_iff_empty_catalog_witness :
    ∃ r, solve [wAlice] [stMorning] [] .current = Except.ok r :=
  (solve_error_iff_empty_catalog [wAlice] [stMorning] [] .current).2 (by simp)

/-- C5: with zero workers and a non-empty catalog, `solve` returns without
error an assignment in which every slot maps to `None`, with status `Partial`
and `filledCount = 0`; the assignment covers all `7 × |shiftTypes|` slots. -/
theorem solve_empty_roster (S : List ShiftType) (C : List UnavailabilityConstraint)
    (k : WeekSelector) (hS : S ≠ []) :
    ∃ r, solve [] S C k = Except.ok r ∧ (∀ p ∈ r.assignment, p.2 = none) ∧
      r.status = SolveStatus.Partial ∧ r.filledCount = 0 ∧
      r.totalSlots = 7 * S.length ∧ r.assignment.length = r.totalSlots := by
  have hmap : solveSlots [] C (buildSlotGrid S)
      = (buildSlotGrid S).map (fun s => (s, (none : Option Worker))) := by
    rw [solveSlots, foldl_assignSlot_nil_workers]
    simp
  have hfilter : ((solveSlots [] C (buildSlotGrid S)).filter (fun p => p.2.isSome)) = [] := by
    rw [hmap, List.filter_eq_nil_iff]
    intro p hp
    rcases List.mem_map.mp hp with ⟨s, -, rfl⟩
    simp
  have hgrid0 : (buildSlotGrid S).length ≠ 0 := by
    rw [buildSlotGrid_length]
    have : S.length ≠ 0 := fun h => hS (List.length_eq_zero.mp h)
    omega
  refine ⟨_, solve_eq_ok [] C k hS, ?_, ?_, ?_, ?_, ?_⟩
  · intro p hp
    have hp' : p ∈ (buildSlotGrid S).map (fun s => (s, (none : Option Worker))) := by
      rw [← hmap]; exact hp
    rcases List.mem_map.mp hp' with ⟨s, -, rfl⟩
    rfl
  · show (if ((solveSlots [] C (buildSlotGrid S)).filter (fun p => p.2.isSome)).length
        = (buildSlotGrid S).length then SolveStatus.Complete else .Partial) = .Partial
    rw [hfilter]
    simp only [List.length_nil]
    rw [if_neg (fun h => hgrid0 h.symm)]
  · show ((solveSlots [] C (buildSlotGrid S)).filter (fun p => p.2.isSome)).length = 0
    rw [hfilter]
    rfl
  · exact buildSlotGrid_length S
  · show (solveSlots [] C (buildSlotGrid S)).length = (buildSlotGrid S).length
    rw [hmap, List.length_map]

/-- Witness for C5 at the spec's concrete scenario:
`solve([], [{id:1,name:"Morning"}], [], "current")`. -/
theorem solve_empty_roster_witness :
    ∃ r, solve [] [stMorning] [] .current = Except.ok r ∧
      (∀ p ∈ r.assignment, p.2 = none) ∧
      r.status = SolveStatus.Partial ∧ r.filledCount = 0 ∧
      r.totalSlots = 7 * [stMorning].length ∧ r.assignment.length = r.totalSlots :=
  solve_empty_roster [stMorning] [] .current (by simp)

/-- C6: if for every slot in the grid at least one worker is eligible for it
and holds no same-day slot in the returned assignment, then `solve` returns
status `Complete` with every slot filled. -/
theorem solve_complete_when_feasible (W : List Worker) (S : List ShiftType)
    (C : List UnavailabilityConstraint) (k : WeekSelector) (r : SolveResult)
    (hr : solve W S C k = Except.ok r)
    (hfeas : ∀ slot ∈ buildSlotGrid S, ∃ w ∈ W,
      eligibleFor C slot w = true ∧ assignedOnDay r.assignment slot.day w = false) :
    r.status = SolveStatus.Complete ∧ ∀ p ∈ r.assignment, p.2 ≠ none := by
  obtain ⟨hS, hassign, hstatus, -, -⟩ := solve_ok_inv hr
  have hfill : ∀ p ∈ r.assignment, p.2 ≠ none := by
    rintro ⟨s, ow⟩ hp hnone
    simp only at hnone
    subst hnone
    rw [hassign] at hp
    rcases foldl_assignSlot_unfilled W C (buildSlotGrid S) [] s hp with h | h
    · simp at h
    · have hs_mem : s ∈ buildSlotGrid S := by
        rcases foldl_assignSlot_mem_src W C (buildSlotGrid S) [] (s, none) hp with h' | h'
        · simp at h'
        · exact h'
      obtain ⟨w, hwW, helig, hnass⟩ := hfeas s hs_mem
      rcases h w hwW with h'' | h''
      · rw [helig] at h''
        cases h''
      · rw [hassign, solveSlots] at hnass
        rw [hnass] at h''
        cases h''
  refine ⟨?_, hfill⟩
  rw [hstatus]
  have hall : (solveSlots W C (buildSlotGrid S)).filter (fun p => p.2.isSome)
      = solveSlots W C (buildSlotGrid S) := by
    rw [List.filter_eq_self]
    intro p hp
    have hne := hfill p (by rw [hassign]; exact hp)
    exact Option.isSome_iff_ne_none.mpr hne
  rw [hall]
  have hlen : (solveSlots W C (buildSlotGrid S)).length = (buildSlotGrid S).length := by
    rw [solveSlots, foldl_assignSlot_length]
    simp
  simp [hlen]

/-- The solve result for two workers, the one-entry catalog and no
constraints: the days alternate between the two workers. -/
def rC6 : SolveResult :=
  { assignment :=
      [(⟨0,1⟩, some wAlice), (⟨1,1⟩, some wBob), (⟨2,1⟩, some wAlice),
       (⟨3,1⟩, some wBob), (⟨4,1⟩, some wAlice), (⟨5,1⟩, some wBob),
       (⟨6,1⟩, some wAlice)]
  , status := .Complete, filledCount := 7, totalSlots := 7 }

/-- Witness for C6 at a concrete input: two workers, the one-entry catalog,
no constraints — on each day the other worker is free, and the result is
`Complete` with every slot filled. -/
theorem solve_complete_when_feasible_witness :
    rC6.status = SolveStatus.Complete ∧ ∀ p ∈ rC6.assignment, p.2 ≠ none :=
  solve_complete_when_feasible [wAlice, wBob] [stMorning] [] .current rC6 rfl (by decide)

/-- C7: for exactly 2 workers with no constraints and a catalog of 2 shift
types on a single day, the greedy pass assigns each of the two workers to
exactly one of the two slots: the first slot goes to the lexicographically
smaller identifier, and the second slot to the other worker, who has strictly
fewer shifts after the first assignment (and is in any case the only worker
not yet assigned that day). -/
theorem solveSlots_fairness_two_workers :
    solveSlots [wAlice, wBob] [] [⟨0,1⟩, ⟨0,2⟩]
      = [(⟨0,1⟩, some wAlice), (⟨0,2⟩, some wBob)] ∧ wAlice ≠ wBob := by
  constructor
  · decide
  · decide

/-- C8: under `addWorkerRow`'s layout (name cell 0, id-number cell 1, phone
cell 2, email cell 3, shifts cell 4), `sendWorkersAndGetSchedule` parses each
posted worker's shifts from the input in cell index 1 — the id-number column
— not from the shifts column in cell index 4: the row's outcome is invariant
under the phone, email and shifts-column texts, and a posted worker's shifts
are exactly the numeric tokens of the id-number text. -/
theorem parseRow_reads_id_number_cell (r : WorkerRow) (s p e : String) :
    WorkerRow.cell r 1 = r.idNumber ∧ WorkerRow.cell r 4 = r.shiftsText ∧
    parseRow { r with phone := p, email := e, shiftsText := s } = parseRow r ∧
    (∀ w, parseRow r = some w →
      w.shifts = ((splitComma (trimChars (r.idNumber).toList)).map jsNumber).filterMap id) := by
  refine ⟨rfl, rfl, rfl, ?_⟩
  intro w hw
  rw [parseRow_eq_qualifies] at hw
  by_cases hq : rowQualifies r = true
  · rw [if_pos hq] at hw
    have hww : rowWorker r = w := Option.some.inj hw
    subst hww
    rfl
  · rw [Bool.not_eq_true] at hq
    rw [hq] at hw
    cases hw

/-- The concrete table row for the C8 witness: the id-number column holds
"1,2" while the shifts column holds "7,8". -/
def rowC8 : WorkerRow := ⟨"dan", "1,2", "050", "x@y", "7,8"⟩

/-- Witness for C8: the worker posted for `rowC8` takes its shifts [1, 2]
from the id-number column. -/
theorem parseRow_reads_id_number_cell_witness :
    (⟨"dan", [1, 2]⟩ : PostedWorker).shifts
      = ((splitComma (trimChars (rowC8.idNumber).toList)).map jsNumber).filterMap id :=
  (parseRow_reads_id_number_cell rowC8 "9" "0" "z").2.2.2 ⟨"dan", [1, 2]⟩ (by decide)

/-- C9: `sendWorkersAndGetSchedule` issues the POST request exactly when at
least one table row qualifies (non-empty trimmed name text, non-empty
trimmed parsed text, and at least one comma-separated token converting to a
number); when no row qualifies it alerts and performs no network request. -/
theorem send_posts_iff_qualifying_row (rows : List WorkerRow) :
    (sendWorkersAndGetSchedule rows = SendResult.posted (buildWorkers rows)
      ↔ ∃ r ∈ rows, rowQualifies r = true) ∧
    (sendWorkersAndGetSchedule rows = SendResult.alerted
      ↔ ∀ r ∈ rows, rowQualifies r = false) := by
  have hempty : buildWorkers rows = [] ↔ ∀ r ∈ rows, rowQualifies r = false := by
    rw [buildWorkers_eq]
    simp [List.filter_eq_nil_iff]
  by_cases hB : buildWorkers rows = []
  · have hall : ∀ r ∈ rows, rowQualifies r = false := hempty.mp hB
    have hsend : sendWorkersAndGetSchedule rows = .alerted := by
      simp [sendWorkersAndGetSchedule, hB]
    refine ⟨⟨?_, ?_⟩, ⟨fun _ => hall, fun _ => hsend⟩⟩
    · intro h
      rw [hsend] at h
      cases h
    · rintro ⟨r0, hr0, hq⟩
      rw [hall r0 hr0] at hq
      cases hq
  · have hex : ∃ r ∈ rows, rowQualifies r = true := by
      by_contra hno
      push_neg at hno
      refine hB (hempty.mpr ?_)
      intro r0 hr0
      simpa using hno r0 hr0
    have hsend : sendWorkersAndGetSchedule rows = .posted (buildWorkers rows) := by
      simp [sendWorkersAndGetSchedule, List.isEmpty_iff, hB]
    refine ⟨⟨fun _ => hex, fun _ => hsend⟩, ⟨?_, ?_⟩⟩
    · intro h
      rw [hsend] at h
      cases h
    · intro hall
      exact absurd (hempty.mpr hall) hB

/-- The concrete table row for the C9 witness. -/
def rowC9 : WorkerRow := ⟨"dan", "1,2", "", "", ""⟩

/-- Witness for C9: one qualifying row leads to the POST outcome. -/
theorem send_posts_iff_qualifying_row_witness :
    sendWorkersAndGetSchedule [rowC9] = SendResult.posted (buildWorkers [rowC9]) :=
  (send_posts_iff_qualifying_row [rowC9]).1.mpr ⟨rowC9, by decide, by decide⟩

/-- C10: the workers array built by `sendWorkersAndGetSchedule` contains, for
each qualifying table row in order, an object whose shifts field is exactly
the comma-separated tokens of the row's parsed (cell-1) text converted with
`Number` and with the NaN results removed; rows with empty trimmed name or
parsed text, or with no numeric token, contribute no element. -/
theorem workers_array_from_qualifying_rows (rows : List WorkerRow) :
    buildWorkers rows
      = (rows.filter rowQualifies).map
          (fun r => { name := ⟨trimChars ((r.cell 0)).toList⟩
                    , shifts := ((splitComma (trimChars ((r.cell 1)).toList)).map
                        jsNumber).filterMap id }) := by
  rw [buildWorkers_eq]
  rfl

